import Mathlib

/-
Verification of tools/scripts/finalize-performance-report.py.

The script is modelled as pure functions over lists of characters
(Python strings are sequences of Unicode code points, and Lean's Char
is a Unicode code point, so List Char is a faithful representation).
Python float arithmetic in the single expression
round(achieved_count * 100 / total_tests, 1) is modelled with exact
rational numbers and round-half-to-even, which agrees with Python
whenever the quotient is exactly representable.  File system state is
modelled as an association list from paths to contents, and the
observable behaviour of main (exit code, standard output, which files
are read, the resulting file system) is returned as a structure.
-/

namespace Finalize

/-- Whitespace characters removed by Python str.strip (the ASCII ones;
both the model of the code and the statements below use this same set,
so claims about the pipeline are insensitive to the exact set). -/
def pyIsSpace (c : Char) : Bool :=
  c = ' ' || c = '\t' || c = '\n' || c = '\r' || c = '\x0b' || c = '\x0c'

/-- Python str.strip(): remove leading and trailing whitespace. -/
def pyStrip (l : List Char) : List Char :=
  ((l.dropWhile pyIsSpace).reverse.dropWhile pyIsSpace).reverse

/-- Python str.split(c) for a single-character separator: split on every
occurrence, keeping empty segments; the empty string yields one empty
segment. -/
def pySplitNl : List Char → List (List Char)
  | [] => [[]]
  | c :: cs =>
    if c = '\n' then [] :: pySplitNl cs
    else
      match pySplitNl cs with
      | [] => [[c]]
      | s :: ss => (c :: s) :: ss

/-- Whether the first list is an initial segment of the second. -/
def isPre : List Char → List Char → Bool
  | [], _ => true
  | _ :: _, [] => false
  | a :: as, b :: bs => a = b && isPre as bs

/-- The first list occurs as a contiguous segment of the second. -/
def occursIn (t l : List Char) : Prop := ∃ x y, l = x ++ t ++ y

/-- Executable occurrence test. -/
def hasSub (t : List Char) : List Char → Bool
  | [] => isPre t []
  | c :: cs => isPre t (c :: cs) || hasSub t cs

/-- Number of positions at which the first list occurs in the second
(for a single-character pattern this is the plain character count). -/
def occCount (t : List Char) : List Char → Nat
  | [] => if isPre t [] then 1 else 0
  | c :: cs => (if isPre t (c :: cs) then 1 else 0) + occCount t cs

/-- Python str.count for a non-empty needle, with explicit structural
fuel (one unit per character suffices, as each step consumes at least
one character): non-overlapping occurrences, scanning from the left. -/
def pyCountF (p : Char) (ps : List Char) : Nat → List Char → Nat
  | _, [] => 0
  | 0, _ => 0
  | fuel + 1, c :: cs =>
    if isPre (p :: ps) (c :: cs) then 1 + pyCountF p ps fuel (List.drop ps.length cs)
    else pyCountF p ps fuel cs

/-- Python str.count for a non-empty needle. -/
def pyCountSub (p : Char) (ps : List Char) (l : List Char) : Nat :=
  pyCountF p ps l.length l

/-- Python str.replace(old, new) for a non-empty old (given as head and
tail), with explicit structural fuel (one unit per character suffices):
replace every non-overlapping occurrence, scanning from the left; the
replacement text is not rescanned.  re.sub with a regex that is a plain
literal has the same replacement behaviour. -/
def replaceAllF (p : Char) (ps new : List Char) : Nat → List Char → List Char
  | _, [] => []
  | 0, l => l
  | fuel + 1, c :: cs =>
    if isPre (p :: ps) (c :: cs) then new ++ replaceAllF p ps new fuel (List.drop ps.length cs)
    else c :: replaceAllF p ps new fuel cs

/-- Python str.replace(old, new) for a non-empty old. -/
def replaceAll (p : Char) (ps new l : List Char) : List Char :=
  replaceAllF p ps new l.length l

/-- Pieces interleaved with a fixed separator block (used to describe
the output of replaceAll). -/
def interleave (new : List Char) : List (List Char) → List Char
  | [] => []
  | [u] => u
  | u :: us => u ++ new ++ interleave new us

/-- Decimal digits of a natural number, most significant first
(models Python str(int) for non-negative values). -/
def natChars (n : Nat) : List Char := Nat.toDigits 10 n

/-- Round a rational to the nearest integer, ties to even (the rounding
used by Python round). -/
def roundHalfEven (q : Rat) : Int :=
  let f : Int := q.floor
  let r : Rat := q - (f : Rat)
  if r < 1/2 then f
  else if 1/2 < r then f + 1
  else if f % 2 = 0 then f else f + 1

/-- Round a rational to one decimal place, ties to even: the model of
Python round(x, 1). -/
def round1 (q : Rat) : Rat := ((roundHalfEven (q * 10) : Int) : Rat) / 10

/-- Decimal rendering of a number of tenths t as an integer part, a dot
and one digit: the model of Python str() on a float that is an exact
multiple of one tenth (only used with t not negative). -/
def fmtTenths (t : Int) : List Char :=
  natChars (t.toNat / 10) ++ '.' :: [Nat.digitChar (t.toNat % 10)]

/-- The five placeholder tokens of the report template. -/
def tokResults : List Char := ("RESULTS_PLACEHOLDER").data

def tokAchievement : List Char := ("ACHIEVEMENT_ANALYSIS_PLACEHOLDER").data

def tokEvaluation : List Char := ("PERFORMANCE_EVALUATION_PLACEHOLDER").data

def tokRecommend : List Char := ("RECOMMENDATIONS_PLACEHOLDER").data

def tokConclusion : List Char := ("CONCLUSION_PLACEHOLDER").data

/-- The heading after which the analysis file is inserted. -/
def headingChars : List Char := ("### 目標達成状況").data

/-- achieved_count = results_content.count of the check-mark glyph. -/
def achieved_count (results : List Char) : Nat := pyCountSub '✅' [] results

/-- total_tests = len(results_content.strip().split(newline)). -/
def total_tests (results : List Char) : Nat := (pySplitNl (pyStrip results)).length

/-- The rounded rate in tenths of a percent, as an integer. -/
def rateTenths (k n : Nat) : Int := roundHalfEven (((k : Rat) * 100 / (n : Rat)) * 10)

/-- achievement_rate: round(achieved_count * 100 / total_tests, 1) when
total_tests is positive, else the integer 0. -/
def achievement_rate (k n : Nat) : Rat :=
  if 0 < n then round1 ((k : Rat) * 100 / (n : Rat)) else 0

/-- The printed form of achievement_rate: one-decimal rendering of the
rounded float, or the single digit 0 for the integer fallback. -/
def rateChars (k n : Nat) : List Char :=
  if 0 < n then fmtTenths (rateTenths k n) else ['0']

/-- The printed form of the pair (achieved_count/total_tests). -/
def countsChars (k n : Nat) : List Char :=
  '(' :: (natChars k ++ '/' :: natChars n) ++ [')']

/-- Canned analysis text, all tests passed. -/
def fullSuccessAnalysis : List Char :=
  ("✅ **すべてのテストコマンドが目標時間を達成しました！**\n\nパフォーマンス改善の効果が確認できました。すべてのテストが目標時間内に完了しています。").data

/-- Partial-success analysis text, fixed part before the rate. -/
def partialAnalysisPre : List Char :=
  ("⚠️ **一部のテストコマンドが目標時間を達成しました**\n\n達成率: ").data

/-- Partial-success analysis text, fixed part after the counts. -/
def partialAnalysisSuf : List Char :=
  ("\n\n未達成のテストコマンドについては、さらなる最適化が必要です。").data

/-- Canned analysis text, no test passed. -/
def failureAnalysis : List Char :=
  ("❌ **すべてのテストコマンドが目標時間を未達成です**\n\nパフォーマンス改善が必要です。以下の推奨事項を確認してください。").data

/-- achievement_analysis: three-way branch of the script. -/
def achievement_analysis (k n : Nat) : List Char :=
  if k = n then fullSuccessAnalysis
  else if 0 < k then
    partialAnalysisPre ++ rateChars k n ++ ("% ").data ++ countsChars k n ++ partialAnalysisSuf
  else failureAnalysis

/-- performance_evaluation: fixed prose block. -/
def performance_evaluation : List Char :=
  ("測定結果から以下の評価を行いました：\n\n- **測定回数**: 各コマンド3回実行\n- **測定環境**: ローカル開発環境\n- **測定精度**: 平均値を使用して評価\n\n実行時間のばらつきが大きい場合は、測定環境の影響を受けている可能性があります。").data

/-- Recommendations when every test met its target. -/
def maintenanceRecs : List Char :=
  ("現在のパフォーマンスは良好です。以下の点に注意して維持してください：\n\n1. **定期的な測定**: パフォーマンスの劣化を早期に検出\n2. **テストの追加**: 新しいテストを追加する際は実行時間に注意\n3. **CI/CD環境での確認**: ローカル環境だけでなくCI/CD環境でも測定").data

/-- Recommendations otherwise: the five-item improvement list. -/
def improvementRecs : List Char :=
  ("以下の改善を検討してください：\n\n1. **並列実行の最適化**: maxConcurrencyの調整\n2. **テスト分離の見直し**: 不要な分離を削減\n3. **タイムアウト設定の調整**: 適切なタイムアウト値の設定\n4. **カバレッジ計算の最適化**: 必要な場合のみ実行\n5. **テストデータの最適化**: テストデータのサイズを削減").data

/-- recommendations: two-way branch of the script. -/
def recommendations (k n : Nat) : List Char :=
  if k = n then maintenanceRecs else improvementRecs

/-- Conclusion when every test met its target. -/
def successConclusion : List Char :=
  ("テストパフォーマンス改善は成功しました。すべてのテストコマンドが目標時間を達成しています。\n\n今後も定期的な測定を行い、パフォーマンスの維持に努めてください。").data

/-- Partial conclusion, fixed part before the rate. -/
def partialConclusionPre : List Char :=
  ("テストパフォーマンス改善は部分的に成功しました。\n\n達成率: **").data

/-- Partial conclusion, fixed part after the counts. -/
def partialConclusionSuf : List Char :=
  ("\n\n未達成のテストコマンドについては、推奨事項を参考にさらなる改善を行ってください。").data

/-- conclusion: two-way branch of the script. -/
def conclusion (k n : Nat) : List Char :=
  if k = n then successConclusion
  else
    partialConclusionPre ++ rateChars k n ++ ("%** ").data ++ countsChars k n ++ partialConclusionSuf

/-- Python str.replace for the literal patterns of the script; every
pattern passed to it below is a non-empty literal, so the empty-pattern
case (never exercised) just returns the text. -/
def replaceTok (tok new l : List Char) : List Char :=
  match tok with
  | [] => l
  | p :: ps => replaceAll p ps new l

/-- The five placeholder substitutions, in the order of the script. -/
def substituted (report results : List Char) : List Char :=
  replaceTok tokConclusion (conclusion (achieved_count results) (total_tests results))
    (replaceTok tokRecommend (recommendations (achieved_count results) (total_tests results))
      (replaceTok tokEvaluation performance_evaluation
        (replaceTok tokAchievement (achievement_analysis (achieved_count results) (total_tests results))
          (replaceTok tokResults results report))))

/-- Numeric value of an ASCII digit. -/
def digitVal (c : Char) : Nat := c.toNat - 48

/-- ASCII octal digit test. -/
def isOctal (c : Char) : Bool := '0' ≤ c && c ≤ '7'

/-- Known single-letter escapes of a re replacement template. -/
def tmplEscape (c : Char) : Option Char :=
  if c = 'a' then some (Char.ofNat 7)
  else if c = 'b' then some (Char.ofNat 8)
  else if c = 'f' then some (Char.ofNat 12)
  else if c = 'n' then some '\n'
  else if c = 'r' then some (Char.ofNat 13)
  else if c = 't' then some '\t'
  else if c = 'v' then some (Char.ofNat 11)
  else none

/-- Expansion of a CPython re replacement template whose pattern has
exactly one group, bound to g1: backslash-backslash is a backslash, a
group reference (backslash digit, backslash two digits, or the angle
bracket form after g) inserts g1 for group 1 and fails otherwise, a
leading-zero or three-octal-digit sequence is an octal character
escape, the letters a b f n r t v are character escapes, any other
ASCII letter after a backslash is an error, any other escaped
character keeps the backslash, and a trailing backslash is an error. -/
def expandTmplF (g1 : List Char) : Nat → List Char → Except (List Char) (List Char)
  | _, [] => Except.ok []
  | 0, l => Except.ok l
  | fuel + 1, '\\' :: rest =>
    match rest with
    | [] => Except.error (("bad escape (end of pattern)").data)
    | d :: ds =>
      if d = '\\' then (expandTmplF g1 fuel ds).map (fun t => '\\' :: t)
      else if d = 'g' then
        match ds with
        | '<' :: more =>
          if (more.dropWhile (fun c => !(c = '>'))).isEmpty then
            Except.error (("missing >, unterminated name").data)
          else if more.takeWhile (fun c => !(c = '>')) = ['1'] then
            (expandTmplF g1 fuel (more.dropWhile (fun c => !(c = '>'))).tail).map
              (fun t => g1 ++ t)
          else Except.error (("invalid group reference or unknown group name").data)
        | _ => Except.error (("missing <").data)
      else if d = '0' then
        match ds with
        | [] => Except.ok [Char.ofNat 0]
        | e1 :: more1 =>
          if isOctal e1 then
            match more1 with
            | [] => Except.ok [Char.ofNat (digitVal e1)]
            | e2 :: more2 =>
              if isOctal e2 then
                (expandTmplF g1 fuel more2).map
                  (fun t => Char.ofNat (8 * digitVal e1 + digitVal e2) :: t)
              else (expandTmplF g1 fuel (e2 :: more2)).map (fun t => Char.ofNat (digitVal e1) :: t)
          else (expandTmplF g1 fuel (e1 :: more1)).map (fun t => Char.ofNat 0 :: t)
      else if d.isDigit then
        match ds with
        | e1 :: e2 :: more2 =>
          if e1.isDigit && e2.isDigit && isOctal d && isOctal e1 && isOctal e2 then
            (expandTmplF g1 fuel more2).map
              (fun t => Char.ofNat (64 * digitVal d + 8 * digitVal e1 + digitVal e2) :: t)
          else if e1.isDigit then
            Except.error (("invalid group reference").data)
          else if d = '1' then (expandTmplF g1 fuel (e1 :: e2 :: more2)).map (fun t => g1 ++ t)
          else Except.error (("invalid group reference").data)
        | [e1] =>
          if e1.isDigit then Except.error (("invalid group reference").data)
          else if d = '1' then (expandTmplF g1 fuel [e1]).map (fun t => g1 ++ t)
          else Except.error (("invalid group reference").data)
        | [] =>
          if d = '1' then Except.ok g1
          else Except.error (("invalid group reference").data)
      else if d.isAlpha then
        match tmplEscape d with
        | some c => (expandTmplF g1 fuel ds).map (fun t => c :: t)
        | none => Except.error (("bad escape").data)
      else (expandTmplF g1 fuel ds).map (fun t => '\\' :: d :: t)
  | fuel + 1, c :: rest => (expandTmplF g1 fuel rest).map (fun t => c :: t)

/-- Expansion of a CPython re replacement template (fuel of one unit per
character suffices, as every recursive step consumes at least one). -/
def expandTmpl (g1 l : List Char) : Except (List Char) (List Char) :=
  expandTmplF g1 l.length l

/-- The analysis-insertion step of the script: re.sub with the literal
heading pattern in one group, and the replacement template built by
prepending a group-1 reference and an escaped newline to the raw
analysis text. -/
def insertAnalysis (analysis report : List Char) : Except (List Char) (List Char) :=
  match expandTmpl headingChars ( '\\' :: '1' :: '\\' :: 'n' :: analysis) with
  | Except.error e => Except.error e
  | Except.ok repl => Except.ok (replaceTok headingChars repl report)

/-- The pure text transformation of a run: substitution of the five
placeholders, then insertion of the analysis after the heading. -/
def finalizeContent (report results analysis : List Char) : Except (List Char) (List Char) :=
  insertAnalysis analysis (substituted report results)

/-- File system model: association list from paths to contents; a path
is present exactly when os.path.exists is true for it. -/
def lookupFS : List (List Char × List Char) → List Char → Option (List Char)
  | [], _ => none
  | (p, v) :: rest, q => if p = q then some v else lookupFS rest q

/-- Overwrite the contents at a path; only called on paths whose
existence was already checked, so the not-found case never occurs. -/
def updateFS : List (List Char × List Char) → List Char → List Char → List (List Char × List Char)
  | [], _, _ => []
  | (p, v) :: rest, q, nv => if p = q then (p, nv) :: rest else (p, v) :: updateFS rest q nv

/-- First line printed when fewer than four argv entries are present. -/
def msgArgsShort : List Char := ("エラー: 引数が不足しています").data

/-- Second line of the usage diagnostic. -/
def msgUsage (prog : List Char) : List Char :=
  ("使用方法: ").data ++ prog ++ (" <report-file> <results-file> <analysis-file>").data

/-- Diagnostic for a missing report file. -/
def msgMissingReport (p : List Char) : List Char :=
  ("エラー: レポートファイルが見つかりません: ").data ++ p

/-- Diagnostic for a missing results file. -/
def msgMissingResults (p : List Char) : List Char :=
  ("エラー: 結果ファイルが見つかりません: ").data ++ p

/-- Diagnostic for a missing analysis file. -/
def msgMissingAnalysis (p : List Char) : List Char :=
  ("エラー: 分析ファイルが見つかりません: ").data ++ p

/-- Success confirmation line. -/
def msgDone (p : List Char) : List Char := ("✓ レポートを完成させました: ").data ++ p

/-- Success rate summary line. -/
def msgRateLine (results : List Char) : List Char :=
  ("達成率: ").data
    ++ rateChars (achieved_count results) (total_tests results)
    ++ ("% ").data
    ++ countsChars (achieved_count results) (total_tests results)

/-- Observable outcome of a run of main: process exit code, lines
printed to standard output, paths opened for reading (in order), and
the file system afterwards. -/
structure RunResult where
  exitCode : Nat
  stdout : List (List Char)
  reads : List (List Char)
  fs : List (List Char × List Char)
deriving DecidableEq

/-- The whole of main: argument-count check, the three existence checks
in order, the three reads, the pure transformation, the write back to
the report path and the two summary lines; a template-expansion error
escapes as an uncaught exception (exit code 1, traceback on standard
error, nothing further on standard output, no write).  An empty argv
raises an uncaught IndexError while building the usage line, after the
first diagnostic line was printed. -/
def runMain (argv : List (List Char)) (fs : List (List Char × List Char)) : RunResult :=
  match argv with
  | _ :: report :: results :: analysis :: _ =>
    match lookupFS fs report with
    | none => ⟨1, [msgMissingReport report], [], fs⟩
    | some reportContent =>
      match lookupFS fs results with
      | none => ⟨1, [msgMissingResults results], [], fs⟩
      | some resultsContent =>
        match lookupFS fs analysis with
        | none => ⟨1, [msgMissingAnalysis analysis], [], fs⟩
        | some analysisContent =>
          match finalizeContent reportContent resultsContent analysisContent with
          | Except.error _ => ⟨1, [], [report, results, analysis], fs⟩
          | Except.ok finalText =>
            ⟨0, [msgDone report, msgRateLine resultsContent],
              [report, results, analysis], updateFS fs report finalText⟩
  | [] => ⟨1, [msgArgsShort], [], fs⟩
  | prog :: _ => ⟨1, [msgArgsShort, msgUsage prog], [], fs⟩

/-- Stated from the claim for comparison with the code: insert the
analysis as a new line immediately after the first line exactly equal
to the heading, leaving the text unchanged when no such line exists. -/
def insertAfterFirstHeading (analysis : List Char) : List (List Char) → List (List Char)
  | [] => []
  | l :: rest =>
    if l = headingChars then l :: analysis :: rest
    else l :: insertAfterFirstHeading analysis rest

/-- Join lines with newline separators (inverse of pySplitNl). -/
def joinNl : List (List Char) → List Char
  | [] => []
  | [u] => u
  | u :: us => u ++ '\n' :: joinNl us

/-- Stated from the claim for comparison with the code: the claimed
line-based, first-occurrence-only insertion behaviour. -/
def claimedInsert (analysis report : List Char) : List Char :=
  joinNl (insertAfterFirstHeading analysis (pySplitNl report))

/-- Character class of the placeholder tokens: ASCII capital letters
and the underscore. -/
def tokChar (c : Char) : Bool := ('A' ≤ c && c ≤ 'Z') || c = '_'

/-- Whether an Except-valued run produced a success text containing the
given segment. -/
def okHasSub (t : List Char) : Except (List Char) (List Char) → Bool
  | Except.ok f => hasSub t f
  | Except.error _ => false

/-- The final report text produced by a successful run: the substituted
template with the analysis inserted after each heading occurrence. -/
def finalOutput (template results analysis : List Char) : List Char :=
  replaceTok headingChars (headingChars ++ '\n' :: analysis) (substituted template results)

/-- Executable check that the first character of a text, when present,
is not a character of the given segment. -/
def headOkB (tok l : List Char) : Bool :=
  match l.head? with
  | none => true
  | some c => !(decide (c ∈ tok))

/-- Executable check that the last character of a text, when present,
is not a character of the given segment. -/
def lastOkB (tok l : List Char) : Bool :=
  match l.getLast? with
  | none => true
  | some c => !(decide (c ∈ tok))

/-- isPre decides the initial-segment relation. -/
theorem isPre_iff (t l : List Char) : isPre t l = true ↔ ∃ v, l = t ++ v := by
  induction t generalizing l with
  | nil => simp [isPre]
  | cons a as ih =>
    cases l with
    | nil =>
      simp only [isPre]
      constructor
      · intro h; cases h
      · rintro ⟨v, hv⟩; cases hv
    | cons b bs =>
      simp only [isPre, Bool.and_eq_true, decide_eq_true_eq, ih]
      constructor
      · rintro ⟨rfl, v, rfl⟩; exact ⟨v, rfl⟩
      · rintro ⟨v, hv⟩
        injection hv with h1 h2
        exact ⟨h1.symm, v, h2⟩

/-- An occurrence in a non-empty list is either at the start or in the
tail. -/
theorem occursIn_cons (t : List Char) (c : Char) (l : List Char) :
    occursIn t (c :: l) ↔ (∃ v, c :: l = t ++ v) ∨ occursIn t l := by
  constructor
  · rintro ⟨x, y, hxy⟩
    cases x with
    | nil => exact Or.inl ⟨y, by simpa using hxy⟩
    | cons a as =>
      injection hxy with h1 h2
      exact Or.inr ⟨as, y, h2⟩
  · rintro (⟨v, hv⟩ | ⟨x, y, hxy⟩)
    · exact ⟨[], v, by simpa using hv⟩
    · exact ⟨c :: x, y, by simp [hxy]⟩

/-- Only the empty segment occurs in the empty list. -/
theorem occursIn_nil (t : List Char) : occursIn t [] ↔ t = [] := by
  constructor
  · rintro ⟨x, y, hxy⟩
    rcases List.append_eq_nil.mp hxy.symm with ⟨h1, h2⟩
    rcases List.append_eq_nil.mp h1 with ⟨-, h3⟩
    exact h3
  · rintro rfl; exact ⟨[], [], rfl⟩

/-- hasSub decides the occurrence relation. -/
theorem hasSub_iff (t l : List Char) : hasSub t l = true ↔ occursIn t l := by
  induction l with
  | nil =>
    simp only [hasSub, isPre_iff, occursIn_nil]
    constructor
    · rintro ⟨v, hv⟩
      rcases List.append_eq_nil.mp hv.symm with ⟨h1, -⟩
      exact h1
    · rintro rfl; exact ⟨[], rfl⟩
  | cons c cs ih =>
    simp only [hasSub, Bool.or_eq_true, isPre_iff, ih, occursIn_cons]

instance occursInDec (t l : List Char) : Decidable (occursIn t l) :=
  decidable_of_iff (hasSub t l = true) (hasSub_iff t l)

/-- Occurrence is transitive along containment. -/
theorem occursIn_mono {t u s : List Char} (h1 : occursIn t u) (h2 : occursIn u s) :
    occursIn t s := by
  rcases h1 with ⟨x, y, rfl⟩
  rcases h2 with ⟨x2, y2, rfl⟩
  exact ⟨x2 ++ x, y ++ y2, by simp⟩

/-- Characters of an occurring segment are characters of the text. -/
theorem mem_of_occursIn {t w : List Char} (h : occursIn t w) {c : Char} (hc : c ∈ t) :
    c ∈ w := by
  rcases h with ⟨x, y, rfl⟩
  simp [hc]

/-- A prefix of an append is a prefix of the left part or extends it
into the right part. -/
theorem pre_split {t x y : List Char} (h : ∃ v, x ++ y = t ++ v) :
    (∃ v, x = t ++ v) ∨ (∃ u v, t = x ++ u ∧ y = u ++ v) := by
  induction x generalizing t with
  | nil => exact Or.inr ⟨t, h.choose, rfl, h.choose_spec⟩
  | cons a as ih =>
    cases t with
    | nil => exact Or.inl ⟨a :: as, rfl⟩
    | cons b bs =>
      rcases h with ⟨v, hv⟩
      injection hv with h1 h2
      rcases ih ⟨v, h2⟩ with ⟨v2, hv2⟩ | ⟨u, v2, hu, hy⟩
      · exact Or.inl ⟨v2, by rw [h1, hv2]; rfl⟩
      · exact Or.inr ⟨u, v2, by rw [h1, hu]; rfl, hy⟩

/-- An occurrence in an append lies in the left part, lies in the right
part, or spans the boundary with a non-trivial split of the segment. -/
theorem occursIn_append_split {t x y : List Char} (h : occursIn t (x ++ y)) :
    occursIn t x ∨ occursIn t y ∨
      ∃ t₁ t₂ x' y', t = t₁ ++ t₂ ∧ t₁ ≠ [] ∧ t₂ ≠ [] ∧ x = x' ++ t₁ ∧ y = t₂ ++ y' := by
  induction x with
  | nil => exact Or.inr (Or.inl (by simpa using h))
  | cons c cs ih =>
    rw [List.cons_append, occursIn_cons] at h
    rcases h with ⟨v, hv⟩ | h
    · cases t with
      | nil => exact Or.inl ⟨[], c :: cs, by simp⟩
      | cons b bs =>
        injection hv with h1 h2
        rcases pre_split ⟨v, h2⟩ with ⟨v2, hv2⟩ | ⟨u, v2, hu, hy⟩
        · exact Or.inl ⟨[], v2, by rw [h1, hv2]; rfl⟩
        · cases u with
          | nil =>
            refine Or.inl ⟨[], [], ?_⟩
            rw [h1, hu]
            simp
          | cons ua uas =>
            refine Or.inr (Or.inr ⟨b :: cs, ua :: uas, [], v2, ?_, by simp, by simp, ?_, hy⟩)
            · rw [hu]; rfl
            · rw [h1]; rfl
    · rcases ih h with h1 | h1 | ⟨t₁, t₂, x', y', ht, hne1, hne2, hx, hy⟩
      · rcases h1 with ⟨x2, y2, hxy⟩
        exact Or.inl ⟨c :: x2, y2, by rw [hxy]; rfl⟩
      · exact Or.inr (Or.inl h1)
      · exact Or.inr (Or.inr ⟨t₁, t₂, c :: x', y', ht, hne1, hne2, by rw [hx]; rfl, hy⟩)

/-- The result of replaceAllF does not depend on the fuel, provided the
fuel covers the length of the text. -/
theorem replaceAllF_fuel {p : Char} {ps new : List Char} :
    ∀ {f1 f2 : Nat} {l : List Char}, l.length ≤ f1 → l.length ≤ f2 →
      replaceAllF p ps new f1 l = replaceAllF p ps new f2 l := by
  intro f1
  induction f1 with
  | zero =>
    intro f2 l h1 h2
    have hl : l = [] := List.length_eq_zero.mp (by omega)
    subst hl
    cases f2 <;> rfl
  | succ f ih =>
    intro f2 l h1 h2
    cases l with
    | nil => cases f2 <;> rfl
    | cons c cs =>
      cases f2 with
      | zero => simp at h2
      | succ g =>
        show (if isPre (p :: ps) (c :: cs)
              then new ++ replaceAllF p ps new f (List.drop ps.length cs)
              else c :: replaceAllF p ps new f cs)
            = (if isPre (p :: ps) (c :: cs)
              then new ++ replaceAllF p ps new g (List.drop ps.length cs)
              else c :: replaceAllF p ps new g cs)
        simp only [List.length_cons] at h1 h2
        have hd := List.length_drop ps.length cs
        by_cases hp : isPre (p :: ps) (c :: cs) = true
        · rw [if_pos hp, if_pos hp]
          exact congrArg (fun t => new ++ t) (ih (by omega) (by omega))
        · rw [if_neg hp, if_neg hp]
          exact congrArg (fun t => c :: t) (ih (by omega) (by omega))

/-- replaceAll on the empty text. -/
theorem replaceAll_nil (p : Char) (ps new : List Char) : replaceAll p ps new [] = [] := rfl

/-- The single-step unfolding of replaceAll. -/
theorem replaceAll_cons (p : Char) (ps new : List Char) (c : Char) (cs : List Char) :
    replaceAll p ps new (c :: cs)
      = if isPre (p :: ps) (c :: cs)
        then new ++ replaceAll p ps new (List.drop ps.length cs)
        else c :: replaceAll p ps new cs := by
  show (if isPre (p :: ps) (c :: cs)
        then new ++ replaceAllF p ps new cs.length (List.drop ps.length cs)
        else c :: replaceAllF p ps new cs.length cs) = _
  have hd := List.length_drop ps.length cs
  by_cases hp : isPre (p :: ps) (c :: cs) = true
  · rw [if_pos hp, if_pos hp]
    exact congrArg (fun t => new ++ t) (replaceAllF_fuel (by omega) (le_refl _))
  · rw [if_neg hp, if_neg hp]
    rfl

/-- The induction principle following the scanning structure of
replaceAll. -/
theorem replaceAll_ind (p : Char) (ps : List Char) (motive : List Char → Prop)
    (hnil : motive [])
    (hyes : ∀ c cs, isPre (p :: ps) (c :: cs) = true →
        motive (List.drop ps.length cs) → motive (c :: cs))
    (hno : ∀ c cs, ¬ isPre (p :: ps) (c :: cs) = true → motive cs → motive (c :: cs)) :
    ∀ l, motive l := by
  have main : ∀ n l, List.length l ≤ n → motive l := by
    intro n
    induction n with
    | zero =>
      intro l h
      have hl : l = [] := List.length_eq_zero.mp (by omega)
      subst hl
      exact hnil
    | succ n ih =>
      intro l h
      cases l with
      | nil => exact hnil
      | cons c cs =>
        simp only [List.length_cons] at h
        have hd := List.length_drop ps.length cs
        by_cases hp : isPre (p :: ps) (c :: cs) = true
        · exact hyes c cs hp (ih _ (by omega))
        · exact hno c cs hp (ih _ (by omega))
  exact fun l => main l.length l (le_refl _)

/-- A pattern that does not occur is not replaced. -/
theorem replaceAll_of_not_occursIn {p : Char} {ps new : List Char} :
    ∀ {s : List Char}, ¬ occursIn (p :: ps) s → replaceAll p ps new s = s := by
  intro s
  induction s using replaceAll_ind p ps with
  | hnil => intro h; rfl
  | hyes c cs hpre ih =>
    intro h
    exact absurd (by rcases (isPre_iff _ _).mp hpre with ⟨v, hv⟩; exact ⟨[], v, by simpa using hv⟩) h
  | hno c cs hpre ih =>
    intro h
    rw [replaceAll_cons, if_neg hpre, ih (fun hocc => h ((occursIn_cons _ _ _).mpr (Or.inr hocc)))]

/-- Replacing an occurring pattern puts the replacement text into the
output. -/
theorem replaceAll_occursIn_new {p : Char} {ps new : List Char} :
    ∀ {s : List Char}, occursIn (p :: ps) s →
      ∃ x y, replaceAll p ps new s = x ++ new ++ y := by
  intro s
  induction s using replaceAll_ind p ps with
  | hnil =>
    intro h
    exact absurd ((occursIn_nil _).mp h) (by simp)
  | hyes c cs hpre ih =>
    intro h
    exact ⟨[], replaceAll p ps new (List.drop ps.length cs), by rw [replaceAll_cons, if_pos hpre]; rfl⟩
  | hno c cs hpre ih =>
    intro h
    rcases (occursIn_cons _ _ _).mp h with ⟨v, hv⟩ | htail
    · exact absurd ((isPre_iff _ _).mpr ⟨v, hv⟩) (by simpa using hpre)
    · rcases ih htail with ⟨x, y, hxy⟩
      exact ⟨c :: x, y, by rw [replaceAll_cons, if_neg hpre, hxy]; rfl⟩

/-- When the replacement is at least as long as the pattern, replacement
does not shorten the text. -/
theorem length_replaceAll_ge {p : Char} {ps new : List Char}
    (hlen : ps.length + 1 ≤ new.length) :
    ∀ {s : List Char}, s.length ≤ (replaceAll p ps new s).length := by
  intro s
  induction s using replaceAll_ind p ps with
  | hnil => simp [replaceAll_nil]
  | hyes c cs hpre ih =>
    rw [replaceAll_cons, if_pos hpre]
    simp only [List.length_append, List.length_cons]
    have hd : (List.drop ps.length cs).length = cs.length - ps.length := List.length_drop _ _
    omega
  | hno c cs hpre ih =>
    rw [replaceAll_cons, if_neg hpre]
    simp only [List.length_cons]
    omega

/-- When the replacement is strictly longer than the pattern and the
pattern occurs, replacement strictly lengthens the text. -/
theorem length_replaceAll_gt {p : Char} {ps new : List Char}
    (hlen : ps.length + 1 < new.length) :
    ∀ {s : List Char}, occursIn (p :: ps) s → s.length < (replaceAll p ps new s).length := by
  intro s
  induction s using replaceAll_ind p ps with
  | hnil =>
    intro h
    exact absurd ((occursIn_nil _).mp h) (by simp)
  | hyes c cs hpre ih =>
    intro h
    rw [replaceAll_cons, if_pos hpre]
    simp only [List.length_append, List.length_cons]
    have hd : (List.drop ps.length cs).length = cs.length - ps.length := List.length_drop _ _
    have hge : (List.drop ps.length cs).length ≤ (replaceAll p ps new (List.drop ps.length cs)).length :=
      length_replaceAll_ge (by omega)
    have hpl : ps.length ≤ cs.length := by
      rcases (isPre_iff _ _).mp hpre with ⟨v, hv⟩
      injection hv with h1 h2
      have := congrArg List.length h2
      simp at this
      omega
    omega
  | hno c cs hpre ih =>
    intro h
    rcases (occursIn_cons _ _ _).mp h with ⟨v, hv⟩ | htail
    · exact absurd ((isPre_iff _ _).mpr ⟨v, hv⟩) (by simpa using hpre)
    · rw [replaceAll_cons, if_neg hpre]
      simp only [List.length_cons]
      exact Nat.succ_lt_succ (ih htail)

/-- Pushing a character into the head piece of an interleaving. -/
theorem interleave_cons_cons (new : List Char) (c : Char) (u : List Char)
    (us : List (List Char)) :
    interleave new ((c :: u) :: us) = c :: interleave new (u :: us) := by
  cases us with
  | nil => rfl
  | cons w ws => rfl

/-- An empty head piece of an interleaving contributes only the
separator block. -/
theorem interleave_nil_cons (new : List Char) (u : List Char) (us : List (List Char)) :
    interleave new ([] :: u :: us) = new ++ interleave new (u :: us) := rfl

/-- The output of replaceAll is the replacement text interleaved with
pieces of the input that are free of the pattern. -/
theorem replaceAll_decomp {p : Char} {ps new : List Char} :
    ∀ {s : List Char}, ∃ u us,
      replaceAll p ps new s = interleave new (u :: us) ∧
      (∃ v, s = u ++ v) ∧ ¬ occursIn (p :: ps) u ∧
      ∀ w ∈ us, ¬ occursIn (p :: ps) w ∧ ∃ x y, s = x ++ w ++ y := by
  intro s
  induction s using replaceAll_ind p ps with
  | hnil =>
    refine ⟨[], [], by simp [replaceAll_nil, interleave], ⟨[], rfl⟩, ?_, by simp⟩
    intro h
    exact absurd ((occursIn_nil _).mp h) (by simp)
  | hyes c cs hpre ih =>
    rcases ih with ⟨u, us, heq, ⟨v, hv⟩, hu, hus⟩
    obtain ⟨T, hsplit⟩ : ∃ T, c :: cs = T ++ List.drop ps.length cs := by
      refine ⟨List.take (ps.length + 1) (c :: cs), ?_⟩
      have h0 : List.drop (ps.length + 1) (c :: cs) = List.drop ps.length cs := rfl
      rw [← h0]
      exact (List.take_append_drop (ps.length + 1) (c :: cs)).symm
    refine ⟨[], u :: us, ?_, ⟨c :: cs, rfl⟩, ?_, ?_⟩
    · rw [replaceAll_cons, if_pos hpre, interleave_nil_cons, heq]
    · intro h
      exact absurd ((occursIn_nil _).mp h) (by simp)
    · intro w hw
      rcases List.mem_cons.mp hw with rfl | hwus
      · exact ⟨hu, T, v, by rw [hsplit, hv, List.append_assoc]⟩
      · rcases hus w hwus with ⟨hw1, x, y, hxy⟩
        refine ⟨hw1, T ++ x, y, ?_⟩
        rw [hsplit, hxy]
        simp [List.append_assoc]
  | hno c cs hpre ih =>
    rcases ih with ⟨u, us, heq, ⟨v, hv⟩, hu, hus⟩
    refine ⟨c :: u, us, ?_, ⟨v, by rw [hv]; rfl⟩, ?_, ?_⟩
    · rw [replaceAll_cons, if_neg hpre, heq, interleave_cons_cons]
    · intro h
      rcases (occursIn_cons _ _ _).mp h with ⟨w, hw⟩ | htail
      · refine absurd ((isPre_iff (p :: ps) (c :: cs)).mpr ⟨w ++ v, ?_⟩) (by simpa using hpre)
        rw [hv]
        show (c :: u) ++ v = p :: ps ++ (w ++ v)
        rw [hw, List.append_assoc]
      · exact hu htail
    · intro w hw
      rcases hus w hw with ⟨hw1, x, y, hxy⟩
      exact ⟨hw1, c :: x, y, by rw [hxy]; rfl⟩

/-- A segment that is free of the pieces and of the separator block, and
whose characters cannot begin or end the separator block, does not occur
in an interleaving. -/
theorem not_occursIn_interleave {tok new : List Char} (htok : tok ≠ [])
    (hnew : ¬ occursIn tok new) (hne : new ≠ [])
    (hh : ∀ c, new.head? = some c → c ∉ tok)
    (hl : ∀ c, new.getLast? = some c → c ∉ tok) :
    ∀ us : List (List Char), (∀ u ∈ us, ¬ occursIn tok u) →
      ¬ occursIn tok (interleave new us) := by
  intro us
  induction us with
  | nil =>
    intro _ h
    exact absurd ((occursIn_nil _).mp h) htok
  | cons u us ih =>
    intro hfree
    cases us with
    | nil =>
      simpa [interleave] using hfree u (by simp)
    | cons w ws =>
      intro hocc
      have hInt : interleave new (u :: w :: ws) = u ++ (new ++ interleave new (w :: ws)) := by
        simp [interleave]
      rw [hInt] at hocc
      rcases occursIn_append_split hocc with h1 | h1 | ⟨t₁, t₂, x', y', ht, hne1, hne2, hx, hy⟩
      · exact hfree u (by simp) h1
      · rcases occursIn_append_split h1 with h2 | h2 | ⟨t₁, t₂, x', y', ht, hne1, hne2, hx, hy⟩
        · exact hnew h2
        · exact ih (fun v hv => hfree v (by simp [hv])) h2
        · have hlast : ∃ c, t₁.getLast? = some c := by
            cases t₁ with
            | nil => exact absurd rfl hne1
            | cons a as => exact ⟨(a :: as).getLast (by simp), by
                rw [List.getLast?_eq_some_iff]
                exact ⟨(a :: as).dropLast, (List.dropLast_append_getLast (by simp)).symm⟩⟩
          rcases hlast with ⟨c, hc⟩
          have hcnew : new.getLast? = some c := by
            rw [hx, List.getLast?_append, hc]
            rfl
          have hctok : c ∈ tok := by
            rw [ht]
            exact List.mem_append_left _ (List.mem_of_getLast?_eq_some hc)
          exact absurd hctok (hl c hcnew)
      · have hhead : ∃ c, t₂.head? = some c := by
          cases t₂ with
          | nil => exact absurd rfl hne2
          | cons a as => exact ⟨a, rfl⟩
        rcases hhead with ⟨c, hc⟩
        have hcnew : new.head? = some c := by
          have : (new ++ interleave new (w :: ws)).head? = some c := by
            rw [hy, List.head?_append, hc]
            rfl
          rw [List.head?_append] at this
          cases hn : new.head? with
          | none =>
            exact absurd (List.head?_isSome.mpr hne) (by simp [hn])
          | some d =>
            rw [hn] at this
            simpa using this
        have hctok : c ∈ tok := by
          rw [ht]
          exact List.mem_append_right _ (List.mem_of_mem_head? (by simp [hc]))
        exact absurd hctok (hh c hcnew)

/-- Replacing a pattern by a text that does not contain it, cannot abut
it and is non-empty removes every occurrence of the pattern. -/
theorem replaceTok_self {tok new : List Char} (htok : tok ≠ [])
    (hnew : ¬ occursIn tok new) (hne : new ≠ [])
    (hh : ∀ c, new.head? = some c → c ∉ tok)
    (hl : ∀ c, new.getLast? = some c → c ∉ tok)
    (s : List Char) :
    ¬ occursIn tok (replaceTok tok new s) := by
  cases tok with
  | nil => exact absurd rfl htok
  | cons p ps =>
    show ¬ occursIn (p :: ps) (replaceAll p ps new s)
    rcases @replaceAll_decomp p ps new s with ⟨u, us, heq, -, hu, hus⟩
    rw [heq]
    refine not_occursIn_interleave htok hnew hne hh hl (u :: us) ?_
    intro w hw
    rcases List.mem_cons.mp hw with rfl | hw2
    · exact hu
    · exact (hus w hw2).1

/-- Replacing any pattern introduces no occurrence of an absent segment
when the replacement text does not contain it and cannot abut it. -/
theorem replaceTok_preserve {pat tok new : List Char} (htok : tok ≠ [])
    (hnew : ¬ occursIn tok new) (hne : new ≠ [])
    (hh : ∀ c, new.head? = some c → c ∉ tok)
    (hl : ∀ c, new.getLast? = some c → c ∉ tok)
    {s : List Char} (hs : ¬ occursIn tok s) :
    ¬ occursIn tok (replaceTok pat new s) := by
  cases pat with
  | nil => exact hs
  | cons p ps =>
    show ¬ occursIn tok (replaceAll p ps new s)
    rcases @replaceAll_decomp p ps new s with ⟨u, us, heq, ⟨v, hv⟩, hu, hus⟩
    rw [heq]
    refine not_occursIn_interleave htok hnew hne hh hl (u :: us) ?_
    intro w hw
    rcases List.mem_cons.mp hw with rfl | hw2
    · exact fun h => hs (occursIn_mono h ⟨[], v, by rw [hv]; rfl⟩)
    · rcases hus w hw2 with ⟨-, x, y, hxy⟩
      exact fun h => hs (occursIn_mono h ⟨x, y, hxy⟩)

/-- A pattern that does not occur is not replaced (replaceTok form). -/
theorem replaceTok_noop {pat new s : List Char} (h : ¬ occursIn pat s) :
    replaceTok pat new s = s := by
  cases pat with
  | nil => rfl
  | cons p ps => exact replaceAll_of_not_occursIn h

/-- Replacing an occurring pattern puts the replacement text into the
output (replaceTok form). -/
theorem replaceTok_occurs {pat new s : List Char} (hne : pat ≠ []) (h : occursIn pat s) :
    ∃ x y, replaceTok pat new s = x ++ new ++ y := by
  cases pat with
  | nil => exact absurd rfl hne
  | cons p ps => exact replaceAll_occursIn_new h

/-- Replacement by a strictly longer text strictly lengthens a text in
which the pattern occurs (replaceTok form). -/
theorem replaceTok_longer {pat new s : List Char} (hne : pat ≠ [])
    (hlen : pat.length < new.length) (h : occursIn pat s) :
    s.length < (replaceTok pat new s).length := by
  cases pat with
  | nil => exact absurd rfl hne
  | cons p ps =>
    refine length_replaceAll_gt ?_ h
    simpa using hlen

/-- A non-empty all-token-character segment does not occur in a text
whose characters are all outside the token character class. -/
theorem not_occursIn_of_clean {tok w : List Char} (htok : tok ≠ [])
    (hall : ∀ c ∈ tok, tokChar c = true)
    (hw : ∀ c ∈ w, tokChar c = false) :
    ¬ occursIn tok w := by
  intro h
  cases tok with
  | nil => exact htok rfl
  | cons a as =>
    have ha : a ∈ w := mem_of_occursIn h (by simp)
    have h1 := hall a (by simp)
    have h2 := hw a ha
    simp [h1] at h2

/-- An occurrence of an all-token-character segment in an append whose
left part is free of token characters lies in the right part. -/
theorem occursIn_right_of_clean_left {tok x y : List Char} (htok : tok ≠ [])
    (hall : ∀ c ∈ tok, tokChar c = true)
    (hx : ∀ c ∈ x, tokChar c = false)
    (h : occursIn tok (x ++ y)) : occursIn tok y := by
  rcases occursIn_append_split h with h1 | h1 | ⟨t₁, t₂, x', y', ht, hne1, hne2, hxeq, hyeq⟩
  · exact absurd h1 (not_occursIn_of_clean htok hall hx)
  · exact h1
  · exfalso
    cases t₁ with
    | nil => exact hne1 rfl
    | cons a as =>
      have hmx : a ∈ x := by
        rw [hxeq]
        exact List.mem_append_right _ (by simp)
      have hmt : a ∈ tok := by
        rw [ht]
        exact List.mem_append_left _ (by simp)
      have h1 := hall a hmt
      have h2 := hx a hmx
      simp [h1] at h2

/-- Characters of a clean text are not characters of an all-token
segment. -/
theorem notMem_of_clean {tok new : List Char}
    (hall : ∀ c ∈ tok, tokChar c = true)
    (hclean : ∀ c ∈ new, tokChar c = false) :
    ∀ c ∈ new, c ∉ tok := by
  intro c hc htokmem
  have h1 := hall c htokmem
  have h2 := hclean c hc
  simp [h1] at h2

/-- The digit characters below ten are outside the token character
class and are decimal digits. -/
theorem natDigit_clean :
    ∀ m, m < 10 → tokChar (Nat.digitChar m) = false ∧ (Nat.digitChar m).isDigit = true := by
  decide

/-- Every character accumulated by the base-ten digit printer is a
digit, hence outside the token character class. -/
theorem toDigitsCore_clean :
    ∀ (fuel n : Nat) (acc : List Char),
      (∀ c ∈ acc, tokChar c = false ∧ c.isDigit = true) →
      ∀ c ∈ Nat.toDigitsCore 10 fuel n acc, tokChar c = false ∧ c.isDigit = true := by
  intro fuel
  induction fuel with
  | zero =>
    intro n acc hacc c hc
    rw [Nat.toDigitsCore] at hc
    exact hacc c hc
  | succ fuel ih =>
    intro n acc hacc c hc
    simp only [Nat.toDigitsCore] at hc
    have hd : ∀ c2 ∈ Nat.digitChar (n % 10) :: acc, tokChar c2 = false ∧ c2.isDigit = true := by
      intro c2 hc2
      rcases List.mem_cons.mp hc2 with rfl | h2
      · exact natDigit_clean _ (Nat.mod_lt _ (by omega))
      · exact hacc c2 h2
    split at hc
    · exact hd c hc
    · exact ih (n / 10) _ hd c hc

/-- Every character printed for a natural number is a digit, hence
outside the token character class. -/
theorem natChars_clean (n : Nat) : ∀ c ∈ natChars n, tokChar c = false ∧ c.isDigit = true := by
  intro c hc
  exact toDigitsCore_clean (n + 1) n [] (by simp) c hc

/-- The printed rate consists of digits and a dot, all outside the token
character class. -/
theorem rateChars_clean (k n : Nat) : ∀ c ∈ rateChars k n, tokChar c = false := by
  intro c hc
  unfold rateChars at hc
  split at hc
  · unfold fmtTenths at hc
    rcases List.mem_append.mp hc with h1 | h1
    · exact (natChars_clean _ c h1).1
    · rcases List.mem_cons.mp h1 with rfl | h2
      · decide
      · simp only [List.mem_singleton] at h2
        subst h2
        exact (natDigit_clean _ (Nat.mod_lt _ (by omega))).1
  · simp only [List.mem_singleton] at hc
    subst hc
    decide

/-- The printed counts consist of digits, parentheses and a slash, all
outside the token character class. -/
theorem countsChars_clean (k n : Nat) : ∀ c ∈ countsChars k n, tokChar c = false := by
  intro c hc
  unfold countsChars at hc
  rcases List.mem_cons.mp hc with rfl | h1
  · decide
  · rcases List.mem_append.mp h1 with h2 | h2
    · rcases List.mem_append.mp h2 with h3 | h3
      · exact (natChars_clean _ c h3).1
      · rcases List.mem_cons.mp h3 with rfl | h4
        · decide
        · exact (natChars_clean _ c h4).1
    · simp only [List.mem_singleton] at h2
      subst h2
      decide

/-- A backslash-free replacement template expands to itself, for any
sufficient fuel. -/
theorem expandTmplF_bs_free {g1 : List Char} :
    ∀ (fuel : Nat) (l : List Char), l.length ≤ fuel → '\\' ∉ l →
      expandTmplF g1 fuel l = Except.ok l := by
  intro fuel
  induction fuel with
  | zero =>
    intro l hl h
    have he : l = [] := List.length_eq_zero.mp (by omega)
    subst he
    rfl
  | succ fuel ih =>
    intro l hl h
    cases l with
    | nil => rfl
    | cons c rest =>
      have hc : c ≠ '\\' := fun hh => h (hh ▸ List.mem_cons_self _ _)
      have hrest : '\\' ∉ rest := fun hh => h (List.mem_cons_of_mem _ hh)
      simp only [List.length_cons] at hl
      rw [expandTmplF.eq_def]
      split
      · rename_i heq
        exact absurd heq (List.cons_ne_nil _ _)
      · rename_i heq
        exact absurd heq (by omega)
      · rename_i hf hl2
        injection hl2 with h1 h2
        exact absurd h1 hc
      · rename_i fuel2 c2 rest2 hf hl2
        injection hl2 with h1 h2
        injection hf with h0
        subst h0; subst h1; subst h2
        rw [ih rest (by omega) hrest]
        rfl

/-- A backslash-free replacement template expands to itself. -/
theorem expandTmpl_bs_free {g1 l : List Char} (h : '\\' ∉ l) :
    expandTmpl g1 l = Except.ok l :=
  expandTmplF_bs_free l.length l (le_refl _) h

/-- The template built by the script, applied to a backslash-free
analysis text, expands to the heading, a newline and the analysis. -/
theorem expandTmpl_template {g1 analysis : List Char} (h : '\\' ∉ analysis) :
    expandTmpl g1 ( '\\' :: '1' :: '\\' :: 'n' :: analysis)
      = Except.ok (g1 ++ '\n' :: analysis) := by
  show expandTmplF g1 (analysis.length + 4) ( '\\' :: '1' :: '\\' :: 'n' :: analysis) = _
  rw [expandTmplF.eq_def]
  norm_num [tmplEscape, isOctal, digitVal]
  rw [expandTmplF.eq_def]
  norm_num [tmplEscape, isOctal, digitVal,
    expandTmplF_bs_free (analysis.length + 2) analysis (by omega) h]
  rfl

/-- For a backslash-free analysis text the insertion step succeeds and
replaces every occurrence of the heading with the heading, a newline
and the analysis text. -/
theorem insertAnalysis_bs_free {analysis report : List Char} (h : '\\' ∉ analysis) :
    insertAnalysis analysis report
      = Except.ok (replaceTok headingChars (headingChars ++ '\n' :: analysis) report) := by
  unfold insertAnalysis
  rw [expandTmpl_template h]

/-- Splitting on newlines yields at least one segment. -/
theorem pySplitNl_ne_nil (l : List Char) : pySplitNl l ≠ [] := by
  induction l with
  | nil => simp [pySplitNl]
  | cons c cs ih =>
    simp only [pySplitNl]
    split
    · simp
    · split
      · simp
      · simp

/-- total_tests is always at least one. -/
theorem total_tests_pos (results : List Char) : 1 ≤ total_tests results := by
  unfold total_tests
  cases h : pySplitNl (pyStrip results) with
  | nil => exact absurd h (pySplitNl_ne_nil _)
  | cons a as => simp [h]

/-- Counting occurrence positions of a single character counts the
character. -/
theorem occCount_single (g : Char) (l : List Char) : occCount [g] l = l.count g := by
  induction l with
  | nil => simp [occCount, isPre]
  | cons c cs ih =>
    simp only [occCount, ih, List.count_cons]
    by_cases hgc : g = c
    · subst hgc; simp [isPre, Nat.add_comm]
    · have hcg : ¬c = g := fun h => hgc h.symm
      simp [isPre, hgc, hcg]

/-- Python str.count of a single character is the occurrence-position
count of that character, for any sufficient fuel. -/
theorem pyCountF_single (g : Char) :
    ∀ (fuel : Nat) (l : List Char), l.length ≤ fuel →
      pyCountF g [] fuel l = occCount [g] l := by
  intro fuel
  induction fuel with
  | zero =>
    intro l hl
    have he : l = [] := List.length_eq_zero.mp (by omega)
    subst he
    simp [pyCountF, occCount, isPre]
  | succ fuel ih =>
    intro l hl
    cases l with
    | nil => simp [pyCountF, occCount, isPre]
    | cons c cs =>
      simp only [List.length_cons] at hl
      show (if isPre [g] (c :: cs) then 1 + pyCountF g [] fuel (List.drop 0 cs)
            else pyCountF g [] fuel cs) = occCount [g] (c :: cs)
      rw [List.drop_zero]
      simp only [occCount, ih cs (by omega)]
      cases h : isPre [g] (c :: cs) <;> simp [h, Nat.add_comm]

/-- Python str.count of a single character is the occurrence-position
count of that character. -/
theorem pyCountSub_single (g : Char) (l : List Char) : pyCountSub g [] l = occCount [g] l :=
  pyCountF_single g l.length l (le_refl _)

/-- Rat.floor is the floor of the FloorRing instance. -/
theorem ratFloor_eq_intFloor (q : ℚ) : q.floor = ⌊q⌋ := by
  rw [Rat.floor_def', Rat.floor_def]

/-- The rounded tenths for two of four. -/
theorem rateTenths_2_4 : rateTenths 2 4 = 500 := by
  unfold rateTenths roundHalfEven
  rw [ratFloor_eq_intFloor]
  norm_num

/-- The printed rate for two of four. -/
theorem rateChars_2_4 : rateChars 2 4 = ("50.0").data := by
  unfold rateChars
  rw [if_pos (by norm_num), rateTenths_2_4]
  rfl

set_option maxRecDepth 40000 in
/-- The fixed prose fragments around the rate contain no token
characters. -/
theorem fixed_fragments_clean :
    (∀ c ∈ fullSuccessAnalysis, tokChar c = false) ∧
    (∀ c ∈ partialAnalysisPre, tokChar c = false) ∧
    (∀ c ∈ partialAnalysisSuf, tokChar c = false) ∧
    (∀ c ∈ failureAnalysis, tokChar c = false) ∧
    (∀ c ∈ performance_evaluation, tokChar c = false) ∧
    (∀ c ∈ successConclusion, tokChar c = false) ∧
    (∀ c ∈ partialConclusionPre, tokChar c = false) ∧
    (∀ c ∈ partialConclusionSuf, tokChar c = false) ∧
    (∀ c ∈ (("% ").data : List Char), tokChar c = false) ∧
    (∀ c ∈ (("%** ").data : List Char), tokChar c = false) := by decide

/-- The selected achievement analysis never contains token characters. -/
theorem achievement_analysis_clean (k n : Nat) :
    ∀ c ∈ achievement_analysis k n, tokChar c = false := by
  intro c hc
  unfold achievement_analysis at hc
  split at hc
  · exact fixed_fragments_clean.1 c hc
  · split at hc
    · simp only [List.mem_append] at hc
      rcases hc with ((((h | h) | h) | h) | h)
      · exact fixed_fragments_clean.2.1 c h
      · exact rateChars_clean k n c h
      · exact fixed_fragments_clean.2.2.2.2.2.2.2.2.1 c h
      · exact countsChars_clean k n c h
      · exact fixed_fragments_clean.2.2.1 c h
    · exact fixed_fragments_clean.2.2.2.1 c hc

/-- The selected conclusion never contains token characters. -/
theorem conclusion_clean (k n : Nat) :
    ∀ c ∈ conclusion k n, tokChar c = false := by
  intro c hc
  unfold conclusion at hc
  split at hc
  · exact fixed_fragments_clean.2.2.2.2.2.1 c hc
  · simp only [List.mem_append] at hc
    rcases hc with ((((h | h) | h) | h) | h)
    · exact fixed_fragments_clean.2.2.2.2.2.2.1 c h
    · exact rateChars_clean k n c h
    · exact fixed_fragments_clean.2.2.2.2.2.2.2.2.2 c h
    · exact countsChars_clean k n c h
    · exact fixed_fragments_clean.2.2.2.2.2.2.2.1 c h

/-- The four computed prose blocks are never empty. -/
theorem texts_ne_nil (k n : Nat) :
    achievement_analysis k n ≠ [] ∧ performance_evaluation ≠ [] ∧
    recommendations k n ≠ [] ∧ conclusion k n ≠ [] := by
  have hpre : 0 < (partialAnalysisPre).length := by decide
  have hcpre : 0 < (partialConclusionPre).length := by decide
  refine ⟨?_, by decide, ?_, ?_⟩
  · unfold achievement_analysis
    split
    · decide
    · split
      · intro heq
        have hlen := congrArg List.length heq
        simp only [List.length_append, List.length_nil] at hlen
        omega
      · decide
  · unfold recommendations
    split
    · decide
    · decide
  · unfold conclusion
    split
    · decide
    · intro heq
      have hlen := congrArg List.length heq
      simp only [List.length_append, List.length_nil] at hlen
      omega

/-- C1: for every results text, achievedCount equals the number of
occurrences of the success glyph as a substring anywhere in the text,
and totalTests equals the number of segments obtained by stripping the
whole text and splitting it on newlines. -/
theorem claim1 (results : List Char) :
    achieved_count results = occCount (("✅").data) results ∧
    total_tests results = (pySplitNl (pyStrip results)).length := by
  refine ⟨?_, rfl⟩
  have h1 : (("✅").data : List Char) = ['✅'] := rfl
  rw [h1, ← pyCountSub_single]
  rfl

/-- C2: the achievement rate is round(achievedCount * 100 / totalTests, 1)
when totalTests is positive and 0 when totalTests is zero; checked also
on concrete values, with ties rounded to even as Python does. -/
theorem claim2 (k n : Nat) :
    (0 < n → achievement_rate k n = round1 ((k : Rat) * 100 / (n : Rat))) ∧
    (n = 0 → achievement_rate k n = 0) ∧
    achievement_rate 2 4 = 50 ∧ achievement_rate 1 3 = 333 / 10 ∧
    achievement_rate 1 16 = 62 / 10 ∧ achievement_rate 0 7 = 0 := by
  refine ⟨fun h => ?_, fun h => ?_, ?_, ?_, ?_, ?_⟩
  · unfold achievement_rate
    rw [if_pos h]
  · unfold achievement_rate
    rw [if_neg (by omega)]
  all_goals unfold achievement_rate round1 roundHalfEven
  all_goals rw [ratFloor_eq_intFloor]
  all_goals norm_num

theorem claim2_witness :
    achievement_rate 2 4 = round1 ((2 : Rat) * 100 / (4 : Rat)) ∧
    achievement_rate 5 0 = 0 :=
  ⟨(claim2 2 4).1 (by decide), (claim2 5 0).2.1 rfl⟩

/-- C10: totalTests is at least one for every results text, including
the empty one, so the zero branch of the rate computation is
unreachable and the division never has a zero divisor. -/
theorem claim10 (results : List Char) :
    1 ≤ total_tests results ∧ total_tests results ≠ 0 ∧
    achievement_rate (achieved_count results) (total_tests results)
      = round1 (((achieved_count results : Nat) : Rat) * 100
          / ((total_tests results : Nat) : Rat)) := by
  have h := total_tests_pos results
  refine ⟨h, by omega, ?_⟩
  unfold achievement_rate
  rw [if_pos (by omega)]

set_option maxRecDepth 40000 in
/-- C3: the three-way section selection: all passed yields the fixed
full-success analysis with no digit in it; a strict partial success
yields the partial analysis containing the rate and the counts (for
2 of 4, the texts 50.0 and (2/4)); zero passed yields the full-failure
analysis, and the recommendations are then the same five-item
improvement list as in the partial case. -/
theorem claim3 (k n : Nat) (hk : 0 < k) (hkn : k < n) :
    achievement_analysis n n = fullSuccessAnalysis ∧
    (∀ c ∈ fullSuccessAnalysis, c.isDigit = false) ∧
    achievement_analysis k n
      = partialAnalysisPre ++ rateChars k n ++ ("% ").data
          ++ countsChars k n ++ partialAnalysisSuf ∧
    occursIn (rateChars k n) (achievement_analysis k n) ∧
    occursIn (countsChars k n) (achievement_analysis k n) ∧
    occursIn (("50.0").data) (achievement_analysis 2 4) ∧
    occursIn (("(2/4)").data) (achievement_analysis 2 4) ∧
    achievement_analysis 0 n = failureAnalysis ∧
    recommendations 0 n = improvementRecs ∧
    recommendations k n = improvementRecs ∧
    occursIn (("1. ").data) improvementRecs ∧
    occursIn (("2. ").data) improvementRecs ∧
    occursIn (("3. ").data) improvementRecs ∧
    occursIn (("4. ").data) improvementRecs ∧
    occursIn (("5. ").data) improvementRecs := by
  have hne : k ≠ n := Nat.ne_of_lt hkn
  have h0n : (0 : Nat) ≠ n := by omega
  have hmid : achievement_analysis k n
      = partialAnalysisPre ++ rateChars k n ++ ("% ").data
          ++ countsChars k n ++ partialAnalysisSuf := by
    unfold achievement_analysis
    rw [if_neg hne, if_pos hk]
  have h24 : achievement_analysis 2 4
      = partialAnalysisPre ++ rateChars 2 4 ++ ("% ").data
          ++ countsChars 2 4 ++ partialAnalysisSuf := by
    unfold achievement_analysis
    rw [if_neg (by omega), if_pos (by omega)]
  have hocc50 : occursIn (("50.0").data) (achievement_analysis 2 4) := by
    refine ⟨partialAnalysisPre, ("% ").data ++ countsChars 2 4 ++ partialAnalysisSuf, ?_⟩
    rw [h24, rateChars_2_4]
    simp [List.append_assoc]
  have hocc24 : occursIn (("(2/4)").data) (achievement_analysis 2 4) := by
    refine ⟨partialAnalysisPre ++ rateChars 2 4 ++ ("% ").data, partialAnalysisSuf, ?_⟩
    rw [h24, show (("(2/4)").data : List Char) = countsChars 2 4 from rfl]
  refine ⟨?_, by decide, hmid, ?_, ?_, hocc50, hocc24, ?_, ?_, ?_,
    by decide, by decide, by decide, by decide, by decide⟩
  · unfold achievement_analysis
    rw [if_pos rfl]
  · exact ⟨partialAnalysisPre,
      ("% ").data ++ countsChars k n ++ partialAnalysisSuf,
      by rw [hmid]; simp [List.append_assoc]⟩
  · exact ⟨partialAnalysisPre ++ rateChars k n ++ ("% ").data, partialAnalysisSuf,
      by rw [hmid]⟩
  · unfold achievement_analysis
    rw [if_neg h0n, if_neg (by omega)]
  · unfold recommendations
    rw [if_neg h0n]
  · unfold recommendations
    rw [if_neg hne]

theorem claim3_witness :
    achievement_analysis 2 4
      = partialAnalysisPre ++ rateChars 2 4 ++ ("% ").data
          ++ countsChars 2 4 ++ partialAnalysisSuf :=
  (claim3 2 4 (by decide) (by decide)).2.2.1

set_option maxRecDepth 40000 in
/-- C4 counterexample: on a report in which the heading appears twice as
a line, the code inserts the analysis after both occurrences while the
claim predicts insertion only after the first; and on a report in which
the heading appears only inside a longer line, the code still inserts
while the claim predicts no change. -/
theorem claim4_counterexample :
    insertAnalysis (("A").data) (("### 目標達成状況\ny\n### 目標達成状況").data)
        = Except.ok (("### 目標達成状況\nA\ny\n### 目標達成状況\nA").data) ∧
    claimedInsert (("A").data) (("### 目標達成状況\ny\n### 目標達成状況").data)
        = ("### 目標達成状況\nA\ny\n### 目標達成状況").data ∧
    insertAnalysis (("A").data) (("x### 目標達成状況y").data)
        = Except.ok (("x### 目標達成状況\nAy").data) ∧
    claimedInsert (("A").data) (("x### 目標達成状況y").data)
        = ("x### 目標達成状況y").data ∧
    (("### 目標達成状況\nA\ny\n### 目標達成状況\nA").data : List Char)
        ≠ ("### 目標達成状況\nA\ny\n### 目標達成状況").data ∧
    (("x### 目標達成状況\nAy").data : List Char) ≠ ("x### 目標達成状況y").data := by
  exact ⟨rfl, rfl, rfl, rfl, by decide, by decide⟩

/-- C4 amended: for a backslash-free analysis text, the insertion step
succeeds and inserts the analysis text, preceded by a newline, after
every occurrence of the heading substring anywhere in the report (not
line-anchored); when the heading substring does not occur at all, the
report is left unchanged and no error is raised. -/
theorem claim4 (analysis report : List Char) (h : '\\' ∉ analysis) :
    insertAnalysis analysis report
      = Except.ok (replaceTok headingChars (headingChars ++ '\n' :: analysis) report) ∧
    (¬ occursIn headingChars report → insertAnalysis analysis report = Except.ok report) := by
  refine ⟨insertAnalysis_bs_free h, fun hno => ?_⟩
  rw [insertAnalysis_bs_free h, replaceTok_noop hno]

set_option maxRecDepth 40000 in
theorem claim4_witness :
    insertAnalysis (("A").data) (("abc").data) = Except.ok (("abc").data) :=
  (claim4 (("A").data) (("abc").data) (by decide)).2 (by decide)

set_option maxRecDepth 40000 in
/-- C5: the analysis text is not inserted verbatim and insertion can
fail: the code passes the analysis text to re.sub as part of a
replacement template, so an analysis consisting of a single backslash
raises a bad-escape error (the program aborts, nothing is written), and
an analysis consisting of a backslash and the digit one is replaced by
the heading text instead of itself. -/
theorem claim5 :
    insertAnalysis (("\\").data) (("### 目標達成状況").data)
        = Except.error (("bad escape (end of pattern)").data) ∧
    insertAnalysis (("\\1").data) (("### 目標達成状況").data)
        = Except.ok (("### 目標達成状況\n### 目標達成状況").data) := by
  exact ⟨rfl, rfl⟩

set_option maxRecDepth 40000 in
/-- C7 counterexample: on an already finalized report (no placeholder
token present) that still contains the heading line, re-running with an
analysis file consisting of one backslash does not insert the analysis
a second time: the insertion step raises a template error instead. -/
theorem claim7_counterexample :
    (¬ occursIn tokResults (("### 目標達成状況").data) ∧
      ¬ occursIn tokAchievement (("### 目標達成状況").data) ∧
      ¬ occursIn tokEvaluation (("### 目標達成状況").data) ∧
      ¬ occursIn tokRecommend (("### 目標達成状況").data) ∧
      ¬ occursIn tokConclusion (("### 目標達成状況").data)) ∧
    occursIn headingChars (("### 目標達成状況").data) ∧
    finalizeContent (("### 目標達成状況").data) (("").data) (("\\").data)
      = Except.error (("bad escape (end of pattern)").data) := by
  exact ⟨⟨by decide, by decide, by decide, by decide, by decide⟩, by decide, rfl⟩

/-- C7 amended: re-running the transformation on an already finalized
text (all five placeholder tokens absent) performs no substitution;
when the heading is still present and the analysis text is
backslash-free, the analysis text, preceded by a newline, is inserted
once more, so the output is strictly longer: the transformation is not
idempotent. -/
theorem claim7 (T results analysis : List Char)
    (h1 : ¬ occursIn tokResults T) (h2 : ¬ occursIn tokAchievement T)
    (h3 : ¬ occursIn tokEvaluation T) (h4 : ¬ occursIn tokRecommend T)
    (h5 : ¬ occursIn tokConclusion T)
    (hb : '\\' ∉ analysis) (hh : occursIn headingChars T) :
    substituted T results = T ∧
    finalizeContent T results analysis
      = Except.ok (replaceTok headingChars (headingChars ++ '\n' :: analysis) T) ∧
    (∃ x y, replaceTok headingChars (headingChars ++ '\n' :: analysis) T
        = x ++ (headingChars ++ '\n' :: analysis) ++ y) ∧
    T.length < (replaceTok headingChars (headingChars ++ '\n' :: analysis) T).length := by
  have hsub : substituted T results = T := by
    unfold substituted
    rw [replaceTok_noop h1, replaceTok_noop h2, replaceTok_noop h3,
      replaceTok_noop h4, replaceTok_noop h5]
  refine ⟨hsub, ?_, ?_, ?_⟩
  · unfold finalizeContent
    rw [hsub, insertAnalysis_bs_free hb]
  · exact replaceTok_occurs (by decide) hh
  · refine replaceTok_longer (by decide) ?_ hh
    simp only [List.length_append, List.length_cons]
    omega

set_option maxRecDepth 40000 in
theorem claim7_witness :
    substituted (("### 目標達成状況").data) (("").data) = ("### 目標達成状況").data ∧
    (("### 目標達成状況").data : List Char).length
      < (replaceTok headingChars (headingChars ++ '\n' :: ("A").data)
          (("### 目標達成状況").data)).length :=
  ⟨(claim7 (("### 目標達成状況").data) (("").data) (("A").data)
      (by decide) (by decide) (by decide) (by decide) (by decide) (by decide) (by decide)).1,
    (claim7 (("### 目標達成状況").data) (("").data) (("A").data)
      (by decide) (by decide) (by decide) (by decide) (by decide) (by decide) (by decide)).2.2.2⟩

/-- C8: with at least three path arguments, the three input paths are
existence-checked in the order report, results, analysis; the first
missing one is reported by a diagnostic naming that path, the process
exits with code one, no file is read and the file system is unchanged. -/
theorem claim8 (p r s a : List Char) (rest : List (List Char)) :
    (∀ fs, lookupFS fs r = none →
      runMain (p :: r :: s :: a :: rest) fs = ⟨1, [msgMissingReport r], [], fs⟩ ∧
      occursIn r (msgMissingReport r)) ∧
    (∀ fs rc, lookupFS fs r = some rc → lookupFS fs s = none →
      runMain (p :: r :: s :: a :: rest) fs = ⟨1, [msgMissingResults s], [], fs⟩ ∧
      occursIn s (msgMissingResults s)) ∧
    (∀ fs rc sc, lookupFS fs r = some rc → lookupFS fs s = some sc → lookupFS fs a = none →
      runMain (p :: r :: s :: a :: rest) fs = ⟨1, [msgMissingAnalysis a], [], fs⟩ ∧
      occursIn a (msgMissingAnalysis a)) := by
  refine ⟨fun fs h1 => ⟨?_, ?_⟩, fun fs rc h1 h2 => ⟨?_, ?_⟩, fun fs rc sc h1 h2 h3 => ⟨?_, ?_⟩⟩
  · show (match lookupFS fs r with
      | none => ({ exitCode := 1, stdout := [msgMissingReport r], reads := [], fs := fs } : RunResult)
      | some reportContent => _) = _
    rw [h1]
  · exact ⟨("エラー: レポートファイルが見つかりません: ").data, [], by simp [msgMissingReport]⟩
  · show (match lookupFS fs r with
      | none => ({ exitCode := 1, stdout := [msgMissingReport r], reads := [], fs := fs } : RunResult)
      | some reportContent => _) = _
    rw [h1, h2]
  · exact ⟨("エラー: 結果ファイルが見つかりません: ").data, [], by simp [msgMissingResults]⟩
  · show (match lookupFS fs r with
      | none => ({ exitCode := 1, stdout := [msgMissingReport r], reads := [], fs := fs } : RunResult)
      | some reportContent => _) = _
    rw [h1, h2, h3]
  · exact ⟨("エラー: 分析ファイルが見つかりません: ").data, [], by simp [msgMissingAnalysis]⟩

set_option maxRecDepth 40000 in
theorem claim8_witness :
    runMain [("p").data, ("r").data, ("s").data, ("a").data] []
        = ⟨1, [msgMissingReport (("r").data)], [], []⟩ ∧
    runMain [("p").data, ("r").data, ("s").data, ("a").data] [((("r").data), [])]
        = ⟨1, [msgMissingResults (("s").data)], [], [((("r").data), [])]⟩ ∧
    runMain [("p").data, ("r").data, ("s").data, ("a").data]
        [((("r").data), []), ((("s").data), [])]
        = ⟨1, [msgMissingAnalysis (("a").data)], [], [((("r").data), []), ((("s").data), [])]⟩ :=
  ⟨((claim8 (("p").data) (("r").data) (("s").data) (("a").data) []).1 [] rfl).1,
    ((claim8 (("p").data) (("r").data) (("s").data) (("a").data) []).2.1
      [((("r").data), [])] [] rfl rfl).1,
    ((claim8 (("p").data) (("r").data) (("s").data) (("a").data) []).2.2
      [((("r").data), []), ((("s").data), [])] [] [] rfl rfl rfl).1⟩

/-- C9: with fewer than three path arguments the program prints the
missing-argument diagnostic (and, when a program name exists, the usage
line), exits with code one, reads no file and leaves the file system
unchanged. -/
theorem claim9 (argv : List (List Char)) (fs : List (List Char × List Char))
    (h : argv.length < 4) :
    (runMain argv fs).exitCode = 1 ∧
    (runMain argv fs).reads = [] ∧
    (runMain argv fs).fs = fs ∧
    (runMain argv fs).stdout.head? = some msgArgsShort ∧
    ∀ p rest, argv = p :: rest → (runMain argv fs).stdout = [msgArgsShort, msgUsage p] := by
  rcases argv with _ | ⟨a, _ | ⟨b, _ | ⟨c, _ | ⟨d, rest4⟩⟩⟩⟩
  · exact ⟨rfl, rfl, rfl, rfl, fun p rest h' => absurd h' (by simp)⟩
  · refine ⟨rfl, rfl, rfl, rfl, fun p rest h' => ?_⟩
    injection h' with h1 h2
    subst h1
    rfl
  · refine ⟨rfl, rfl, rfl, rfl, fun p rest h' => ?_⟩
    injection h' with h1 h2
    subst h1
    rfl
  · refine ⟨rfl, rfl, rfl, rfl, fun p rest h' => ?_⟩
    injection h' with h1 h2
    subst h1
    rfl
  · simp at h
    omega

set_option maxRecDepth 40000 in
theorem claim9_witness :
    (runMain [("prog").data] []).exitCode = 1 ∧
    (runMain [("prog").data] []).stdout
      = [msgArgsShort, msgUsage (("prog").data)] :=
  ⟨(claim9 [("prog").data] [] (by decide)).1,
    (claim9 [("prog").data] [] (by decide)).2.2.2.2 (("prog").data) [] rfl⟩

/-- A character outside the token character class is not a character of
an all-token-character segment. -/
theorem notMem_tok {tok : List Char} {c : Char}
    (hall : ∀ c2 ∈ tok, tokChar c2 = true) (hc : tokChar c = false) : c ∉ tok := by
  intro hmem
  have := hall c hmem
  simp [this] at hc

/-- The executable head check gives the head condition. -/
theorem headOk_of {tok l : List Char} (h : headOkB tok l = true) :
    ∀ c, l.head? = some c → c ∉ tok := by
  intro c hc
  unfold headOkB at h
  rw [hc] at h
  simpa using h

/-- The executable last check gives the last condition. -/
theorem lastOk_of {tok l : List Char} (h : lastOkB tok l = true) :
    ∀ c, l.getLast? = some c → c ∉ tok := by
  intro c hc
  unfold lastOkB at h
  rw [hc] at h
  simpa using h

/-- Replacement by a non-empty text free of token characters preserves
the absence of an all-token-character segment. -/
theorem preserve_clean {tok new : List Char} (htok : tok ≠ [])
    (hall : ∀ c ∈ tok, tokChar c = true)
    (hclean : ∀ c ∈ new, tokChar c = false) (hne : new ≠ [])
    {pat s : List Char} (hs : ¬ occursIn tok s) :
    ¬ occursIn tok (replaceTok pat new s) :=
  replaceTok_preserve htok (not_occursIn_of_clean htok hall hclean) hne
    (fun c hc => notMem_tok hall (hclean c (List.mem_of_mem_head? (by simp [hc]))))
    (fun c hc => notMem_tok hall (hclean c (List.mem_of_getLast?_eq_some hc)))
    hs

/-- Replacing an all-token-character pattern by a non-empty text free of
token characters removes every occurrence of the pattern. -/
theorem self_clean {tok new : List Char} (htok : tok ≠ [])
    (hall : ∀ c ∈ tok, tokChar c = true)
    (hclean : ∀ c ∈ new, tokChar c = false) (hne : new ≠ [])
    (s : List Char) :
    ¬ occursIn tok (replaceTok tok new s) :=
  replaceTok_self htok (not_occursIn_of_clean htok hall hclean) hne
    (fun c hc => notMem_tok hall (hclean c (List.mem_of_mem_head? (by simp [hc]))))
    (fun c hc => notMem_tok hall (hclean c (List.mem_of_getLast?_eq_some hc)))
    s

/-- The heading and its following newline contain no token characters. -/
theorem headingNl_clean : ∀ c ∈ headingChars ++ ['\n'], tokChar c = false := by decide

/-- The replacement block used by the insertion step neither contains an
all-token-character segment absent from the analysis text nor can abut
one. -/
theorem insertion_new_facts {tok analysis : List Char} (htok : tok ≠ [])
    (hall : ∀ c ∈ tok, tokChar c = true)
    (hatok : ¬ occursIn tok analysis)
    (hal : ∀ c, analysis.getLast? = some c → tokChar c = false) :
    ¬ occursIn tok (headingChars ++ '\n' :: analysis) ∧
    (∀ c, (headingChars ++ '\n' :: analysis).head? = some c → c ∉ tok) ∧
    (∀ c, (headingChars ++ '\n' :: analysis).getLast? = some c → c ∉ tok) := by
  have hsplit : headingChars ++ '\n' :: analysis = (headingChars ++ ['\n']) ++ analysis := by
    simp
  refine ⟨?_, ?_, ?_⟩
  · intro h
    rw [hsplit] at h
    exact hatok (occursIn_right_of_clean_left htok hall headingNl_clean h)
  · intro c hc
    rw [show (headingChars ++ '\n' :: analysis).head? = some '#' from rfl] at hc
    injection hc with hcc
    subst hcc
    exact notMem_tok hall (by decide)
  · intro c hc
    rw [hsplit, List.getLast?_append] at hc
    cases ha : analysis.getLast? with
    | none =>
      rw [ha] at hc
      simp only [Option.none_or] at hc
      rw [show (headingChars ++ ['\n']).getLast? = some '\n' from rfl] at hc
      injection hc with hcc
      subst hcc
      exact notMem_tok hall (by decide)
    | some d =>
      rw [ha] at hc
      simp only [Option.or_some] at hc
      injection hc with hcc
      subst hcc
      exact notMem_tok hall (hal d ha)

/-- The insertion step preserves the absence of an all-token-character
segment that does not occur in the analysis text and cannot abut it. -/
theorem insertion_preserve {tok analysis : List Char} (htok : tok ≠ [])
    (hall : ∀ c ∈ tok, tokChar c = true)
    (hatok : ¬ occursIn tok analysis)
    (hal : ∀ c, analysis.getLast? = some c → tokChar c = false)
    {s : List Char} (hs : ¬ occursIn tok s) :
    ¬ occursIn tok (replaceTok headingChars (headingChars ++ '\n' :: analysis) s) := by
  rcases insertion_new_facts htok hall hatok hal with ⟨f1, f2, f3⟩
  exact replaceTok_preserve htok f1 (by simp) f2 f3 hs

/-- The recommendations substitution preserves the absence of a segment
that occurs in neither canned recommendations text and cannot abut
either. -/
theorem recs_preserve {k n : Nat} {tok : List Char} (htok : tok ≠ [])
    (hm : ¬ occursIn tok maintenanceRecs) (hi : ¬ occursIn tok improvementRecs)
    (hmh : headOkB tok maintenanceRecs = true) (hml : lastOkB tok maintenanceRecs = true)
    (hih : headOkB tok improvementRecs = true) (hil : lastOkB tok improvementRecs = true)
    {s : List Char} (hs : ¬ occursIn tok s) :
    ¬ occursIn tok (replaceTok tokRecommend (recommendations k n) s) := by
  unfold recommendations
  split
  · exact replaceTok_preserve htok hm (by decide) (headOk_of hmh) (lastOk_of hml) hs
  · exact replaceTok_preserve htok hi (by decide) (headOk_of hih) (lastOk_of hil) hs

/-- The recommendations substitution removes its own placeholder. -/
theorem recs_self {k n : Nat} {s : List Char}
    (hm : ¬ occursIn tokRecommend maintenanceRecs)
    (hi : ¬ occursIn tokRecommend improvementRecs)
    (hmh : headOkB tokRecommend maintenanceRecs = true)
    (hml : lastOkB tokRecommend maintenanceRecs = true)
    (hih : headOkB tokRecommend improvementRecs = true)
    (hil : lastOkB tokRecommend improvementRecs = true) :
    ¬ occursIn tokRecommend (replaceTok tokRecommend (recommendations k n) s) := by
  unfold recommendations
  split
  · exact replaceTok_self (by decide) hm (by decide) (headOk_of hmh) (lastOk_of hml) s
  · exact replaceTok_self (by decide) hi (by decide) (headOk_of hih) (lastOk_of hil) s

set_option maxRecDepth 40000 in
/-- C6 counterexample: a template containing each of the five
placeholder tokens exactly once, together with a results file whose
text itself contains the token RESULTS PLACEHOLDER, produces a final
output in which that token is still present (the replacement text of
str.replace is not rescanned, and no later substitution removes it). -/
theorem claim6_counterexample :
    occCount tokResults (("RESULTS_PLACEHOLDER\nACHIEVEMENT_ANALYSIS_PLACEHOLDER\nPERFORMANCE_EVALUATION_PLACEHOLDER\nRECOMMENDATIONS_PLACEHOLDER\nCONCLUSION_PLACEHOLDER").data) = 1 ∧
    occCount tokAchievement (("RESULTS_PLACEHOLDER\nACHIEVEMENT_ANALYSIS_PLACEHOLDER\nPERFORMANCE_EVALUATION_PLACEHOLDER\nRECOMMENDATIONS_PLACEHOLDER\nCONCLUSION_PLACEHOLDER").data) = 1 ∧
    occCount tokEvaluation (("RESULTS_PLACEHOLDER\nACHIEVEMENT_ANALYSIS_PLACEHOLDER\nPERFORMANCE_EVALUATION_PLACEHOLDER\nRECOMMENDATIONS_PLACEHOLDER\nCONCLUSION_PLACEHOLDER").data) = 1 ∧
    occCount tokRecommend (("RESULTS_PLACEHOLDER\nACHIEVEMENT_ANALYSIS_PLACEHOLDER\nPERFORMANCE_EVALUATION_PLACEHOLDER\nRECOMMENDATIONS_PLACEHOLDER\nCONCLUSION_PLACEHOLDER").data) = 1 ∧
    occCount tokConclusion (("RESULTS_PLACEHOLDER\nACHIEVEMENT_ANALYSIS_PLACEHOLDER\nPERFORMANCE_EVALUATION_PLACEHOLDER\nRECOMMENDATIONS_PLACEHOLDER\nCONCLUSION_PLACEHOLDER").data) = 1 ∧
    okHasSub tokResults
      (finalizeContent
        (("RESULTS_PLACEHOLDER\nACHIEVEMENT_ANALYSIS_PLACEHOLDER\nPERFORMANCE_EVALUATION_PLACEHOLDER\nRECOMMENDATIONS_PLACEHOLDER\nCONCLUSION_PLACEHOLDER").data)
        (("RESULTS_PLACEHOLDER✅").data) (("").data)) = true := by
  exact ⟨by decide, by decide, by decide, by decide, by decide, by decide⟩

set_option maxRecDepth 40000 in
/-- C6 amended: for every template containing each of the five
placeholder tokens exactly once, all five tokens are absent from the
final output and every replacement text is non-empty, provided the
results text is non-empty, does not contain the results token and does
not begin or end with a token character (an ASCII capital letter or
underscore), and the analysis text is backslash-free, contains none of
the five tokens and does not end with a token character. -/
theorem claim6 (template results analysis : List Char)
    (_ht1 : occCount tokResults template = 1)
    (_ht2 : occCount tokAchievement template = 1)
    (_ht3 : occCount tokEvaluation template = 1)
    (_ht4 : occCount tokRecommend template = 1)
    (_ht5 : occCount tokConclusion template = 1)
    (hrne : results ≠ [])
    (hrtok : ¬ occursIn tokResults results)
    (hrh : ∀ c, results.head? = some c → tokChar c = false)
    (hrl : ∀ c, results.getLast? = some c → tokChar c = false)
    (hab : '\\' ∉ analysis)
    (ha1 : ¬ occursIn tokResults analysis) (ha2 : ¬ occursIn tokAchievement analysis)
    (ha3 : ¬ occursIn tokEvaluation analysis) (ha4 : ¬ occursIn tokRecommend analysis)
    (ha5 : ¬ occursIn tokConclusion analysis)
    (hal : ∀ c, analysis.getLast? = some c → tokChar c = false) :
    finalizeContent template results analysis
      = Except.ok (finalOutput template results analysis) ∧
    (∀ tok ∈ ([tokResults, tokAchievement, tokEvaluation, tokRecommend, tokConclusion] :
        List (List Char)), ¬ occursIn tok (finalOutput template results analysis)) ∧
    results ≠ [] ∧
    achievement_analysis (achieved_count results) (total_tests results) ≠ [] ∧
    performance_evaluation ≠ [] ∧
    recommendations (achieved_count results) (total_tests results) ≠ [] ∧
    conclusion (achieved_count results) (total_tests results) ≠ [] := by
  refine ⟨?_, ?_, hrne, (texts_ne_nil (achieved_count results) (total_tests results)).1, (texts_ne_nil (achieved_count results) (total_tests results)).2.1,
    (texts_ne_nil (achieved_count results) (total_tests results)).2.2.1, (texts_ne_nil (achieved_count results) (total_tests results)).2.2.2⟩
  · unfold finalizeContent finalOutput
    exact insertAnalysis_bs_free hab
  · intro tok htok
    unfold finalOutput substituted
    fin_cases htok
    · refine insertion_preserve (by decide) (by decide) ha1 hal ?_
      refine preserve_clean (by decide) (by decide) (conclusion_clean _ _)
        ((texts_ne_nil (achieved_count results) (total_tests results)).2.2.2) ?_
      refine recs_preserve (by decide) (by decide) (by decide) (by decide) (by decide)
        (by decide) (by decide) ?_
      refine preserve_clean (by decide) (by decide) fixed_fragments_clean.2.2.2.2.1
        ((texts_ne_nil (achieved_count results) (total_tests results)).2.1) ?_
      refine preserve_clean (by decide) (by decide) (achievement_analysis_clean _ _)
        ((texts_ne_nil (achieved_count results) (total_tests results)).1) ?_
      exact replaceTok_self (by decide) hrtok hrne
        (fun c hc => notMem_tok (by decide) (hrh c hc))
        (fun c hc => notMem_tok (by decide) (hrl c hc)) template
    · refine insertion_preserve (by decide) (by decide) ha2 hal ?_
      refine preserve_clean (by decide) (by decide) (conclusion_clean _ _)
        ((texts_ne_nil (achieved_count results) (total_tests results)).2.2.2) ?_
      refine recs_preserve (by decide) (by decide) (by decide) (by decide) (by decide)
        (by decide) (by decide) ?_
      refine preserve_clean (by decide) (by decide) fixed_fragments_clean.2.2.2.2.1
        ((texts_ne_nil (achieved_count results) (total_tests results)).2.1) ?_
      exact self_clean (by decide) (by decide) (achievement_analysis_clean _ _)
        ((texts_ne_nil (achieved_count results) (total_tests results)).1) _
    · refine insertion_preserve (by decide) (by decide) ha3 hal ?_
      refine preserve_clean (by decide) (by decide) (conclusion_clean _ _)
        ((texts_ne_nil (achieved_count results) (total_tests results)).2.2.2) ?_
      refine recs_preserve (by decide) (by decide) (by decide) (by decide) (by decide)
        (by decide) (by decide) ?_
      exact self_clean (by decide) (by decide) fixed_fragments_clean.2.2.2.2.1
        ((texts_ne_nil (achieved_count results) (total_tests results)).2.1) _
    · refine insertion_preserve (by decide) (by decide) ha4 hal ?_
      refine preserve_clean (by decide) (by decide) (conclusion_clean _ _)
        ((texts_ne_nil (achieved_count results) (total_tests results)).2.2.2) ?_
      exact recs_self (by decide) (by decide) (by decide) (by decide) (by decide) (by decide)
    · refine insertion_preserve (by decide) (by decide) ha5 hal ?_
      exact self_clean (by decide) (by decide) (conclusion_clean _ _)
        ((texts_ne_nil (achieved_count results) (total_tests results)).2.2.2) _

set_option maxRecDepth 40000 in
theorem claim6_witness :
    finalizeContent
        (("RESULTS_PLACEHOLDER\nACHIEVEMENT_ANALYSIS_PLACEHOLDER\nPERFORMANCE_EVALUATION_PLACEHOLDER\nRECOMMENDATIONS_PLACEHOLDER\nCONCLUSION_PLACEHOLDER").data)
        (("✅").data) (("done").data)
      = Except.ok (finalOutput
        (("RESULTS_PLACEHOLDER\nACHIEVEMENT_ANALYSIS_PLACEHOLDER\nPERFORMANCE_EVALUATION_PLACEHOLDER\nRECOMMENDATIONS_PLACEHOLDER\nCONCLUSION_PLACEHOLDER").data)
        (("✅").data) (("done").data)) :=
  (claim6
    (("RESULTS_PLACEHOLDER\nACHIEVEMENT_ANALYSIS_PLACEHOLDER\nPERFORMANCE_EVALUATION_PLACEHOLDER\nRECOMMENDATIONS_PLACEHOLDER\nCONCLUSION_PLACEHOLDER").data)
    (("✅").data) (("done").data)
    (by decide) (by decide) (by decide) (by decide) (by decide)
    (by decide) (by decide)
    (by intro c hc; rw [show ((("✅").data : List Char)).head? = some '✅' from rfl] at hc;
        injection hc with h; subst h; decide)
    (by intro c hc; rw [show ((("✅").data : List Char)).getLast? = some '✅' from rfl] at hc;
        injection hc with h; subst h; decide)
    (by decide) (by decide) (by decide) (by decide) (by decide) (by decide)
    (by intro c hc; rw [show ((("done").data : List Char)).getLast? = some 'e' from rfl] at hc;
        injection hc with h; subst h; decide)).1

end Finalize

